import Mathlib

/-!
Shallow embedding of the natural-language date/time parser of
`src/date_parser.c` (smart-todo-cli), together with theorems settling the
frozen claims about it.

Modelling conventions:

* C strings are `List Char`; a `const char *` cursor into a string is the
  remaining suffix.  A possibly-NULL string argument is `Option (List Char)`.
* C integers are `Int` with machine behaviour made explicit where the source
  can reach it: `strtol` saturates its result into the 64-bit `long` range
  (`satLong`), and the `tm->tm_min = (int)minutes` store in `parse_time` is
  the truncating 32-bit cast (`intCast`).  The `(int)num` casts of the
  relative-date offsets stay unbounded, and the theorem about them carries an
  explicit size bound under which the cast is the identity.
* `struct tm` is the record `Tm` below with an absolute `year` field (C stores
  `year - 1900`; the `tm_year++` in the source is `year := year + 1` here,
  which is the same operation).  `tm_wday`/`tm_yday` are derived fields filled
  by `localtime_r`; they are modelled by the functions `tmWday`/`tmYday`.
* The program runs against a single local wall clock with no DST breaks (the
  spec's "single local wall-clock notion"): `mktime` is the usual civil
  calendar normalisation (days-from-civil × 86400 + time of day) and
  `localtime` its inverse.  `time(NULL)` followed by `localtime_r` yields a
  pair `(now, tm_now)` with `now = mktime tm_now` and `tm_now` a normalised
  calendar value, so the functions below are parameterised by the snapshot
  `tm_now : Tm` and recover the `time_t` value as `mktime tm_now`; the
  repeated `time(NULL)` calls inside one parse are identified with that single
  snapshot, as in the spec's description of a once-captured "now".
-/

namespace DateParser

/-! ## Character classes (ctype.h), on ASCII codepoints -/

/-- C `isspace`: space, \t, \n, \v, \f, \r. -/
def isspaceC (c : Char) : Bool :=
  c == ' ' || c == '\t' || c == '\n' || c == '\x0b' || c == '\x0c' || c == '\r'

/-- C `isdigit`. -/
def isdigitC (c : Char) : Bool :=
  48 ≤ c.toNat && c.toNat ≤ 57

/-- C `tolower` on ASCII. -/
def tolowerC (c : Char) : Char :=
  if 65 ≤ c.toNat ∧ c.toNat ≤ 90 then Char.ofNat (c.toNat + 32) else c

/-- C `toupper` on ASCII. -/
def toupperC (c : Char) : Char :=
  if 97 ≤ c.toNat ∧ c.toNat ≤ 122 then Char.ofNat (c.toNat - 32) else c

/-! ## Lexical helpers of date_parser.c -/

/-- `skip_whitespace`: advance the cursor past whitespace. -/
def skipWhitespace (s : List Char) : List Char :=
  s.dropWhile isspaceC

/-- `strncasecmp(str, pre, pre.length) == 0`: case-insensitive prefix match.
`starts_with` in the source is this with the literal's full length; the
3-letter table lookups use it with the name truncated to 3 characters.  If
`str` ends before the literal does, the C comparison hits the terminating NUL
and fails, which is the `[]`-vs-cons case here. -/
def startsWithCIAux : List Char → List Char → Bool
  | [], _ => true
  | _ :: _, [] => false
  | p :: ps, c :: cs => tolowerC c == tolowerC p && startsWithCIAux ps cs

def startsWithCI (s pre : List Char) : Bool :=
  startsWithCIAux pre s

/-- Value of a decimal digit string, most significant first. -/
def digitsVal (l : List Char) : Int :=
  l.foldl (fun a c => a * 10 + ((c.toNat : Int) - 48)) 0

/-- Saturation of a value into the 64-bit `long` range: on overflow C's
`strtol` returns `LONG_MAX` (or `LONG_MIN` for a negative value). -/
def satLong (n : Int) : Int :=
  if n < -9223372036854775808 then -9223372036854775808
  else if 9223372036854775807 < n then 9223372036854775807
  else n

/-- The C cast of a `long` to a 32-bit `int`: reduction into
`[-2^31, 2^31)` (the two's-complement truncation gcc/clang perform). -/
def intCast (n : Int) : Int :=
  (n + 2147483648) % 4294967296 - 2147483648

/-- C `strtol(p, &endptr, 10)`, returning `none` exactly when `endptr == p`
(no digits found), and otherwise the parsed value, saturated into the
`long` range, with the rest of the string.  Leading whitespace and one
optional sign are consumed. -/
def strtol (s : List Char) : Option (Int × List Char) :=
  let s1 := s.dropWhile isspaceC
  let neg : Bool := s1.head? == some '-'
  let s2 := if s1.head? == some '-' || s1.head? == some '+' then s1.tail else s1
  let ds := s2.takeWhile isdigitC
  if ds.isEmpty then none
  else some (satLong (if neg then -digitsVal ds else digitsVal ds), s2.dropWhile isdigitC)

/-! ## Calendar arithmetic (struct tm, mktime, localtime_r) -/

/-- The fields of `struct tm` that the parser reads and writes.  `mon` is
0-based as in C; `year` is the absolute year. -/
structure Tm where
  year : Int
  mon  : Int
  mday : Int
  hour : Int
  min  : Int
  sec  : Int
deriving Repr, DecidableEq

/-- Days since 1970-01-01 of the civil date `(y, m, d)` with `m` 1-based in
`[1, 12]` and `d` an arbitrary integer (the formula is affine in `d`, which
is exactly how `mktime` normalises out-of-range day numbers). -/
def daysFromCivil (y m d : Int) : Int :=
  let y1 := if m ≤ 2 then y - 1 else y
  let era := y1 / 400
  let yoe := y1 - era * 400
  let mp := (m + 9) % 12
  let doy := (153 * mp + 2) / 5 + d - 1
  let doe := yoe * 365 + yoe / 4 - yoe / 100 + doy
  era * 146097 + doe - 719468

/-- Inverse of `daysFromCivil`: the civil date `(y, m, d)` (`m` 1-based) of a
day count since 1970-01-01. -/
def civilFromDays (z0 : Int) : Int × Int × Int :=
  let z := z0 + 719468
  let era := z / 146097
  let doe := z - era * 146097
  let yoe := (doe - doe / 1460 + doe / 36524 - doe / 146096) / 365
  let y := yoe + era * 400
  let doy := doe - (365 * yoe + yoe / 4 - yoe / 100)
  let mp := (5 * doy + 2) / 153
  let d := doy - (153 * mp + 2) / 5 + 1
  let m := if mp < 10 then mp + 3 else mp - 9
  (if m ≤ 2 then y + 1 else y, m, d)

/-- Day count since the epoch of a `Tm`'s date fields, normalising an
out-of-range month into the year as `mktime` does. -/
def civilDay (t : Tm) : Int :=
  let ym := t.year * 12 + t.mon
  daysFromCivil (ym / 12) (ym % 12 + 1) t.mday

/-- C `mktime`: normalise the broken-down time and return seconds since the
epoch of the local wall clock. -/
def mktime (t : Tm) : Int :=
  civilDay t * 86400 + t.hour * 3600 + t.min * 60 + t.sec

/-- C `localtime_r`: break an epoch second count into normalised fields. -/
def localtime (x : Int) : Tm :=
  let days := x / 86400
  let secs := x % 86400
  let c := civilFromDays days
  { year := c.1, mon := c.2.1 - 1, mday := c.2.2,
    hour := secs / 3600, min := (secs % 3600) / 60, sec := secs % 60 }

/-- The `tm_wday` field `localtime_r` would fill for a `Tm`'s date
(0 = Sunday; 1970-01-01 was a Thursday, weekday 4). -/
def tmWday (t : Tm) : Int :=
  (civilDay t + 4) % 7

/-- The `tm_yday` field `localtime_r` would fill for a `Tm`'s date
(0 for January 1). -/
def tmYday (t : Tm) : Int :=
  civilDay t - daysFromCivil t.year 1 1

/-! ## Name tables -/

/-- `parse_weekday`: first-3-letters case-insensitive match against
sunday..saturday, first hit wins (the C loop in table order). -/
def parse_weekday (input : List Char) : Option Int :=
  if startsWithCI input "sun".toList then some 0
  else if startsWithCI input "mon".toList then some 1
  else if startsWithCI input "tue".toList then some 2
  else if startsWithCI input "wed".toList then some 3
  else if startsWithCI input "thu".toList then some 4
  else if startsWithCI input "fri".toList then some 5
  else if startsWithCI input "sat".toList then some 6
  else none

/-- `parse_month`: first-3-letters case-insensitive match against
january..december, first hit wins. -/
def parse_month (input : List Char) : Option Int :=
  if startsWithCI input "jan".toList then some 0
  else if startsWithCI input "feb".toList then some 1
  else if startsWithCI input "mar".toList then some 2
  else if startsWithCI input "apr".toList then some 3
  else if startsWithCI input "may".toList then some 4
  else if startsWithCI input "jun".toList then some 5
  else if startsWithCI input "jul".toList then some 6
  else if startsWithCI input "aug".toList then some 7
  else if startsWithCI input "sep".toList then some 8
  else if startsWithCI input "oct".toList then some 9
  else if startsWithCI input "nov".toList then some 10
  else if startsWithCI input "dec".toList then some 11
  else none

/-! ## The three recognizers -/

/-- `parse_relative_date`: "tomorrow", "in N unit", "next weekday", producing
the `(days, hours, minutes)` out-parameters.  The caller initialises all
three to 0 and the source writes only the components shown before returning
true, so returning the full triple is exact.  `tm_now` is the wall-clock
snapshot the source re-reads with `time(NULL)`/`localtime_r` for the
"next weekday" arithmetic. -/
def parse_relative_date (tm_now : Tm) (input : List Char) : Option (Int × Int × Int) :=
  let p := skipWhitespace input
  if startsWithCI p "tomorrow".toList then
    some (1, 9, 0)
  else if startsWithCI p "in ".toList then
    match strtol (skipWhitespace (p.drop 3)) with
    | none => none
    | some (num, p1) =>
      let p2 := skipWhitespace p1
      if startsWithCI p2 "day".toList || p2.head? == some 'd' then some (num, 0, 0)
      else if startsWithCI p2 "hour".toList || p2.head? == some 'h' then some (0, num, 0)
      else if startsWithCI p2 "minute".toList || startsWithCI p2 "min".toList
          || p2.head? == some 'm' then some (0, 0, num)
      else none
  else if startsWithCI p "next ".toList then
    match parse_weekday (p.drop 5) with
    | none => none
    | some weekday =>
      let days_until := (weekday - tmWday tm_now + 7) % 7
      some ((if days_until = 0 then 7 else days_until), 9, 0)
  else none

/-- `parse_absolute_date`: "month day" (with year rollover when the candidate
instant is before now) or a bare weekday, updating the accumulator `tm`.
The out-of-range-day and no-digit cases fall through to the weekday check
exactly as in the source; the C `%` on the nonnegative `x + 7` agrees with
`emod`. -/
def parse_absolute_date (tm_now : Tm) (input : List Char) (tm : Tm) : Option Tm :=
  let monthDay : Option Tm :=
    match parse_month input with
    | none => none
    | some month =>
      match strtol (input.dropWhile (fun c => !(isdigitC c))) with
      | none => none
      | some (day, _) =>
        if 1 ≤ day ∧ day ≤ 31 then
          let tm1 := { tm with mon := month, mday := day }
          let tm2 := if mktime tm1 < mktime tm_now then { tm1 with year := tm1.year + 1 } else tm1
          some { tm2 with hour := 9, min := 0, sec := 0 }
        else none
  match monthDay with
  | some r => some r
  | none =>
    match parse_weekday input with
    | none => none
    | some weekday =>
      let du0 := (weekday - tmWday tm_now + 7) % 7
      let days_until := if du0 = 0 then 7 else du0
      some { tm with mday := tm.mday + days_until, hour := 9, min := 0, sec := 0 }

/-- The minutes part of `parse_time`: after a ':' a number is required,
otherwise the minutes default to 0 and the cursor does not move. -/
def parseMinutesPart (p2 : List Char) : Option (Int × List Char) :=
  match p2 with
  | ':' :: rest => strtol rest
  | _ => some (0, p2)

/-- The AM/PM recognition of `parse_time` on the cursor after the minutes:
`(has_am_pm, is_pm)`. -/
def meridiemOf (p4 : List Char) : Bool × Bool :=
  match p4 with
  | c :: _ => (toupperC c == 'A' || toupperC c == 'P', toupperC c == 'P')
  | [] => (false, false)

/-- The 12-hour adjustment of `parse_time` (lines 276-285 of the source):
with a meridiem, 12am is 0 and 12pm is 12, and pm adds 12; without one, a
bare hour in [0, 12) defaults to PM. -/
def adjustHours (hours : Int) (has_am_pm is_pm : Bool) : Int :=
  if has_am_pm then
    if hours = 12 then (if is_pm then 12 else 0)
    else if is_pm then hours + 12
    else hours
  else if 0 ≤ hours ∧ hours < 12 then hours + 12
  else hours

/-- `parse_time`: parse `H[:MM][am|pm]`, writing hour/minute/second of the
accumulator on success.  The source stores `tm->tm_min = (int)minutes` — a
truncating 32-bit cast of the parsed `long` — before the range checks, so
the value checked and returned is `intCast` of the parsed minutes (the
no-colon branch stores the literal 0, on which the cast is the identity, so
the cast is applied uniformly to `parseMinutesPart`'s result).  The hours
stay a `long` until after their range check, so they carry no cast.  Since
every caller discards `tm` when `parse_time` fails, the option-valued
result is observationally exact. -/
def parse_time (input : List Char) (tm : Tm) : Option Tm :=
  match strtol (skipWhitespace input) with
  | none => none
  | some (hours0, p1) =>
    match parseMinutesPart (skipWhitespace p1) with
    | none => none
    | some (mins, p3) =>
      let tm_min := intCast mins
      let md := meridiemOf (skipWhitespace p3)
      let hours := adjustHours hours0 md.1 md.2
      if hours < 0 ∨ 23 < hours then none
      else if tm_min < 0 ∨ 59 < tm_min then none
      else some { tm with hour := hours, min := tm_min, sec := 0 }

/-! ## Entry points -/

/-- `parse_natural_date` with a non-NULL input: relative, then absolute, then
time-of-day, against the snapshot `tm_now`; the first success wins. -/
def parse_natural_date (tm_now : Tm) (input : List Char) : Option Int :=
  match parse_relative_date tm_now input with
  | some (days_offset, hours_offset, minutes_offset) =>
    some (mktime { tm_now with
                   mday := tm_now.mday + days_offset
                   hour := hours_offset
                   min := minutes_offset
                   sec := 0 })
  | none =>
    match parse_absolute_date tm_now input tm_now with
    | some tm2 => some (mktime tm2)
    | none =>
      match parse_time input tm_now with
      | some tm2 => some (mktime tm2)
      | none => none

/-- `parse_time_today` with a non-NULL input: the parsed time on today's
date, advanced by exactly one day (86400 s) when it has already passed. -/
def parse_time_today (tm_now : Tm) (time_str : List Char) : Option Int :=
  match parse_time time_str tm_now with
  | none => none
  | some tm2 =>
    let r := mktime tm2
    some (if r < mktime tm_now then r + 86400 else r)

/-- The C signature of `parse_natural_date`: a possibly-NULL input string and
the out-parameter `*result` threaded explicitly (`r0` is the value the callee
found there).  Mirrors the source's return points: `*result` is stored only
on the three success paths. -/
def parse_natural_date_c (tm_now : Tm) (input : Option (List Char)) (r0 : Int) :
    Bool × Int :=
  match input with
  | none => (false, r0)
  | some s =>
    match parse_relative_date tm_now s with
    | some (d, h, m) =>
      (true, mktime { tm_now with
                      mday := tm_now.mday + d
                      hour := h
                      min := m
                      sec := 0 })
    | none =>
      match parse_absolute_date tm_now s tm_now with
      | some tm2 => (true, mktime tm2)
      | none =>
        match parse_time s tm_now with
        | some tm2 => (true, mktime tm2)
        | none => (false, r0)

/-- The C signature of `parse_time_today`, as for `parse_natural_date_c`. -/
def parse_time_today_c (tm_now : Tm) (input : Option (List Char)) (r0 : Int) :
    Bool × Int :=
  match input with
  | none => (false, r0)
  | some s =>
    match parse_time s tm_now with
    | none => (false, r0)
    | some tm2 =>
      let r := mktime tm2
      (true, if r < mktime tm_now then r + 86400 else r)

/-! ## The formatter (format_natural_date) -/

/-- Two-digit zero-padded decimal rendering used by `strftime` for `%I`,
`%M`, `%d` (all in `[0, 99]` for the fields involved). -/
def pad2 (n : Int) : List Char :=
  [Char.ofNat (48 + (n.toNat / 10) % 10), Char.ofNat (48 + n.toNat % 10)]

/-- `strftime("%I:%M %p", tm)`: 12-hour clock (hour 0 renders as 12),
zero-padded, with AM for hours below 12 and PM otherwise. -/
def fmtTime12 (t : Tm) : List Char :=
  let h12 := if t.hour % 12 = 0 then 12 else t.hour % 12
  pad2 h12 ++ ':' :: pad2 t.min ++ ' ' :: (if t.hour < 12 then "AM".toList else "PM".toList)

/-- `strftime("%A", tm)`: full weekday name from `tm_wday`. -/
def weekdayFullName (w : Int) : List Char :=
  if w = 0 then "Sunday".toList
  else if w = 1 then "Monday".toList
  else if w = 2 then "Tuesday".toList
  else if w = 3 then "Wednesday".toList
  else if w = 4 then "Thursday".toList
  else if w = 5 then "Friday".toList
  else "Saturday".toList

/-- `strftime("%b", tm)`: abbreviated month name from the 0-based
`tm_mon`. -/
def monthAbbrev (m : Int) : List Char :=
  if m = 0 then "Jan".toList
  else if m = 1 then "Feb".toList
  else if m = 2 then "Mar".toList
  else if m = 3 then "Apr".toList
  else if m = 4 then "May".toList
  else if m = 5 then "Jun".toList
  else if m = 6 then "Jul".toList
  else if m = 7 then "Aug".toList
  else if m = 8 then "Sep".toList
  else if m = 9 then "Oct".toList
  else if m = 10 then "Nov".toList
  else "Dec".toList

/-- `format_natural_date` with its internally captured now made explicit as
a second argument; the returned string is the content `snprintf` writes (the
claims do not involve buffer truncation, and the NULL/zero-size buffer guard
returns before any formatting).  `Int.tmod` is C's truncating `%`. -/
def format_natural_date (timestamp now : Int) : List Char :=
  let tm := localtime timestamp
  let tm_now := localtime now
  let days_diff := Int.tmod (tmYday tm - tmYday tm_now + 365) 365
  let time_buf := fmtTime12 tm
  if days_diff = 0 then "Today at ".toList ++ time_buf
  else if days_diff = 1 then "Tomorrow at ".toList ++ time_buf
  else if days_diff < 7 then weekdayFullName (tmWday tm) ++ " at ".toList ++ time_buf
  else monthAbbrev tm.mon ++ ' ' :: pad2 tm.mday ++ " at ".toList ++ time_buf

/-! ## Concrete instants and names used by the theorems -/

/-- Witnessing instant: 2024-05-20 (a Monday) at 10:30:00 local time. -/
def nowA : Tm := ⟨2024, 4, 20, 10, 30, 0⟩

/-- The instant 2024-05-20 15:00:00, used to show `parse_natural_date`'s
time-of-day branch performs no roll-to-tomorrow correction. -/
def nowB : Tm := ⟨2024, 4, 20, 15, 0, 0⟩

/-- The full weekday names of the source's table, indexed 0 = Sunday. -/
def weekdayName (w : Fin 7) : List Char :=
  if w.val = 0 then "sunday".toList
  else if w.val = 1 then "monday".toList
  else if w.val = 2 then "tuesday".toList
  else if w.val = 3 then "wednesday".toList
  else if w.val = 4 then "thursday".toList
  else if w.val = 5 then "friday".toList
  else "saturday".toList

/-! ## General lemmas about the calendar embedding -/

theorem daysFromCivil_add (y m d k : Int) :
    daysFromCivil y m (d + k) = daysFromCivil y m d + k := by
  simp only [daysFromCivil]
  ring

theorem civilDay_mday_add (t : Tm) (k : Int) :
    civilDay { t with mday := t.mday + k } = civilDay t + k := by
  simp only [civilDay]
  exact daysFromCivil_add _ _ _ _

/-- A date-and-time record assembled from a base `Tm`'s date: its `mktime`
value in terms of the base day count. -/
theorem mktime_update (t : Tm) (k h mi s : Int) :
    mktime { t with mday := t.mday + k, hour := h, min := mi, sec := s }
      = (civilDay t + k) * 86400 + h * 3600 + mi * 60 + s := by
  have hd : civilDay { t with mday := t.mday + k, hour := h, min := mi, sec := s }
      = civilDay t + k := civilDay_mday_add { t with hour := h, min := mi, sec := s } k
  simp only [mktime, hd]

/-! ## Claim C1 -/

/-- C1 counterexample: at `now` = 2024-05-20 10:30:00, `parse_natural_date
"in 3 days"` succeeds, but the resulting instant's time-of-day is 00:00, not
the 09:00 the claim states: the hour/minute offsets of the "in N days" form
stay 0 and overwrite the current time. -/
theorem c1_counterexample :
    parse_natural_date nowA "in 3 days".toList = some 1716422400 ∧
    (localtime 1716422400).hour = 0 ∧ (localtime 1716422400).min = 0 ∧
    ¬ (localtime 1716422400).hour = 9 := by
  decide

/-- C1 amended: for every current instant, `parse_natural_date "in 3 days"`
succeeds and yields exactly midnight (00:00:00, not 09:00) of the date 3
calendar days after the current date. -/
theorem c1_amended (tm_now : Tm) :
    parse_natural_date tm_now "in 3 days".toList = some ((civilDay tm_now + 3) * 86400) ∧
    (localtime ((civilDay tm_now + 3) * 86400)).hour = 0 ∧
    (localtime ((civilDay tm_now + 3) * 86400)).min = 0 ∧
    (localtime ((civilDay tm_now + 3) * 86400)).sec = 0 := by
  refine ⟨?_, ?_, ?_, ?_⟩
  · have h1 : parse_natural_date tm_now "in 3 days".toList
        = some (mktime { tm_now with mday := tm_now.mday + 3, hour := 0, min := 0, sec := 0 }) :=
      rfl
    rw [h1, mktime_update]
    norm_num
  all_goals
    have h0 : ((civilDay tm_now + 3) * 86400) % 86400 = 0 := Int.mul_emod_left _ _
    simp [localtime, h0]

/-! ## Claim C2 -/

/-- C2: a parsed hour `H` with `0 ≤ H < 12` and no AM/PM marker is adjusted
to `H + 12` (bare hours default to PM); `parse_time` on "2:30" gives
hour 14, minute 30, identically to "2:30pm", while "2:30am" gives hour 2;
`parse_time_today` therefore treats "2:30" and "2:30pm" identically and
succeeds on them. -/
theorem c2_bare_hour_defaults_to_pm (H : Int) (tm : Tm) (hH0 : 0 ≤ H) (hH1 : H < 12) :
    adjustHours H false false = H + 12 ∧
    parse_time "2:30".toList tm = some { tm with hour := 14, min := 30, sec := 0 } ∧
    parse_time "2:30pm".toList tm = some { tm with hour := 14, min := 30, sec := 0 } ∧
    parse_time "2:30am".toList tm = some { tm with hour := 2, min := 30, sec := 0 } ∧
    parse_time_today tm "2:30".toList = parse_time_today tm "2:30pm".toList ∧
    (parse_time_today tm "2:30".toList).isSome = true := by
  refine ⟨?_, rfl, rfl, rfl, rfl, rfl⟩
  simp [adjustHours, hH0, hH1]

/-- C2 witness at `H = 2` and the concrete instant `nowA`. -/
theorem c2_witness :
    adjustHours 2 false false = 2 + 12 ∧
    parse_time "2:30".toList nowA = some { nowA with hour := 14, min := 30, sec := 0 } ∧
    parse_time "2:30pm".toList nowA = some { nowA with hour := 14, min := 30, sec := 0 } ∧
    parse_time "2:30am".toList nowA = some { nowA with hour := 2, min := 30, sec := 0 } ∧
    parse_time_today nowA "2:30".toList = parse_time_today nowA "2:30pm".toList ∧
    (parse_time_today nowA "2:30".toList).isSome = true :=
  c2_bare_hour_defaults_to_pm 2 nowA (by decide) (by decide)

/-! ## Structure of successful parse_time runs (shared helper) -/

/-- Anatomy of a successful `parse_time` run: the returned record carries
exactly the adjusted parsed hour and the `int`-cast parsed minutes, zero
seconds, the date fields of the accumulator, and the range checks passed. -/
theorem parse_time_success (s : List Char) (tm tm' : Tm)
    (h : parse_time s tm = some tm') :
    ∃ hours0 p1 mins p3,
      strtol (skipWhitespace s) = some (hours0, p1) ∧
      parseMinutesPart (skipWhitespace p1) = some (mins, p3) ∧
      tm' = { tm with
              hour := adjustHours hours0 (meridiemOf (skipWhitespace p3)).1
                        (meridiemOf (skipWhitespace p3)).2
              min := intCast mins
              sec := 0 } ∧
      0 ≤ tm'.hour ∧ tm'.hour ≤ 23 ∧ 0 ≤ tm'.min ∧ tm'.min ≤ 59 := by
  simp only [parse_time] at h
  split at h
  · exact absurd h (by simp)
  rename_i v hours0 p1 h1
  split at h
  · exact absurd h (by simp)
  rename_i w mins p3 h2
  split at h
  · exact absurd h (by simp)
  split at h
  · exact absurd h (by simp)
  rename_i hg1 hg2
  have he := Option.some.inj h
  push_neg at hg1 hg2
  refine ⟨hours0, p1, mins, p3, h1, h2, ?_, ?_, ?_, ?_, ?_⟩ <;> (rw [← he]; try rfl)
  all_goals (simp only []; omega)

/-! ## Claim C6 -/

/-- C6 counterexample: on "2:4294967296" the minutes literal parses to
2^32, which is outside [0, 59], yet `parse_time` succeeds — the truncating
`(int)` cast stored at date_parser.c:260 wraps 2^32 to 0 before the range
check at line 288, a silent correction of an out-of-range parsed minute. -/
theorem c6_counterexample :
    parseMinutesPart (skipWhitespace ":4294967296".toList) = some (4294967296, []) ∧
    parse_time "2:4294967296".toList nowA
      = some { nowA with hour := 14, min := 0, sec := 0 } ∧
    ((4294967296 : Int) < 0 ∨ 59 < (4294967296 : Int)) ∧
    ¬ ((0 : Int) = 4294967296) := by
  decide

/-- C6 amended: the recognizer fails whenever the adjusted hour is outside
[0, 23] or the parsed minute is, after the truncating `(int)` cast the
source applies when storing it, outside [0, 59]; "25:00" and "13:70" fail
(also through `parse_time_today`) and "14:30" succeeds with hour 14,
minute 30.  On success the returned values are the adjusted parsed hour and
the `(int)` cast of the parsed minute — the cast is the identity on every
minute value that fits in a 32-bit `int`, so within that range no clamping
or correction ever happens. -/
theorem c6_range_validation (s : List Char) (tm tm' : Tm)
    (h : parse_time s tm = some tm') :
    (∀ u : Tm, parse_time "25:00".toList u = none) ∧
    (∀ u : Tm, parse_time "13:70".toList u = none) ∧
    (∀ u : Tm, parse_time_today u "25:00".toList = none) ∧
    (∀ u : Tm, parse_time_today u "13:70".toList = none) ∧
    (∀ u : Tm, parse_time "14:30".toList u = some { u with hour := 14, min := 30, sec := 0 }) ∧
    (∃ hours0 p1 mins p3,
      strtol (skipWhitespace s) = some (hours0, p1) ∧
      parseMinutesPart (skipWhitespace p1) = some (mins, p3) ∧
      tm' = { tm with
              hour := adjustHours hours0 (meridiemOf (skipWhitespace p3)).1
                        (meridiemOf (skipWhitespace p3)).2
              min := intCast mins
              sec := 0 }) ∧
    (∀ m : Int, -2147483648 ≤ m → m < 2147483648 → intCast m = m) ∧
    0 ≤ tm'.hour ∧ tm'.hour ≤ 23 ∧ 0 ≤ tm'.min ∧ tm'.min ≤ 59 := by
  obtain ⟨hours0, p1, mins, p3, h1, h2, he, hb⟩ := parse_time_success s tm tm' h
  refine ⟨fun u => rfl, fun u => rfl, fun u => rfl, fun u => rfl, fun u => rfl,
    ⟨hours0, p1, mins, p3, h1, h2, he⟩, ?_, hb⟩
  intro m hm1 hm2
  simp only [intCast]
  omega

/-- C6 witness at the successful input "14:30" and the instant `nowA`, with
the cast identity exercised at minute 30. -/
theorem c6_witness :
    (∀ u : Tm, parse_time "25:00".toList u = none) ∧
    intCast 30 = 30 ∧
    0 ≤ (Tm.mk 2024 4 20 14 30 0).hour ∧ (Tm.mk 2024 4 20 14 30 0).hour ≤ 23 := by
  have h := c6_range_validation "14:30".toList nowA { nowA with hour := 14, min := 30, sec := 0 }
    (by decide)
  exact ⟨h.1, h.2.2.2.2.2.2.1 30 (by decide) (by decide),
    h.2.2.2.2.2.2.2.1, h.2.2.2.2.2.2.2.2.1⟩

/-! ## Claim C7 -/

/-- C7: whenever the time recognizer succeeds, `parse_time_today` returns
the parsed time on today's date advanced by exactly 86400 seconds when (and
only when) it lies strictly before now, so the result is never strictly
before now; `parse_natural_date`'s own time-of-day branch applies no such
correction: on "2pm" at 2024-05-20 15:00:00 it returns 14:00 of the same
day, strictly before now. -/
theorem c7_roll_to_tomorrow (tm_now : Tm) (s : List Char) (tm' : Tm)
    (hv : 0 ≤ tm_now.hour ∧ tm_now.hour ≤ 23 ∧ 0 ≤ tm_now.min ∧ tm_now.min ≤ 59 ∧
          0 ≤ tm_now.sec ∧ tm_now.sec ≤ 59)
    (h : parse_time s tm_now = some tm') :
    parse_time_today tm_now s
      = some (if mktime tm' < mktime tm_now then mktime tm' + 86400 else mktime tm') ∧
    mktime tm_now ≤ (if mktime tm' < mktime tm_now then mktime tm' + 86400 else mktime tm') ∧
    parse_natural_date nowB "2pm".toList = some 1716213600 ∧
    1716213600 < mktime nowB := by
  refine ⟨?_, ?_, by decide, by decide⟩
  · simp only [parse_time_today, h]
  · obtain ⟨hours0, p1, mins, p3, h1, h2, he, hb⟩ := parse_time_success s tm_now tm' h
    have hsec : tm'.sec = 0 := by rw [he]
    have hm1 : mktime tm' = civilDay tm_now * 86400 + tm'.hour * 3600 + tm'.min * 60 + tm'.sec := by
      have hcd : civilDay tm' = civilDay tm_now := by rw [he]; rfl
      simp only [mktime]
      rw [hcd]
    have hm2 : mktime tm_now
        = civilDay tm_now * 86400 + tm_now.hour * 3600 + tm_now.min * 60 + tm_now.sec := rfl
    split_ifs with hlt <;> omega

/-- C7 witness at "14:30" and the concrete instant `nowA` (10:30, so the
parsed 14:30 is not rolled over). -/
theorem c7_witness :
    parse_time_today nowA "14:30".toList
      = some (if mktime { nowA with hour := 14, min := 30, sec := 0 } < mktime nowA
              then mktime { nowA with hour := 14, min := 30, sec := 0 } + 86400
              else mktime { nowA with hour := 14, min := 30, sec := 0 }) ∧
    mktime nowA ≤ (if mktime { nowA with hour := 14, min := 30, sec := 0 } < mktime nowA
              then mktime { nowA with hour := 14, min := 30, sec := 0 } + 86400
              else mktime { nowA with hour := 14, min := 30, sec := 0 }) := by
  have h := c7_roll_to_tomorrow nowA "14:30".toList { nowA with hour := 14, min := 30, sec := 0 }
    (by decide) (by decide)
  exact ⟨h.1, h.2.1⟩

/-! ## Claim C5 -/

/-- Core of the "next weekday" analysis, shared by the seven weekday cases:
if the parse reduces to the source's day-offset record for weekday index
`W`, the result is strictly after now, 1 to 7 calendar days ahead, lands on
weekday `W`, and has time-of-day 09:00:00. -/
theorem next_weekday_core (tm_now : Tm)
    (hv : 0 ≤ tm_now.hour ∧ tm_now.hour ≤ 23 ∧ 0 ≤ tm_now.min ∧ tm_now.min ≤ 59 ∧
          0 ≤ tm_now.sec ∧ tm_now.sec ≤ 59)
    (W : Int) (name : List Char) (hW0 : 0 ≤ W) (hW1 : W < 7)
    (hpn : parse_natural_date tm_now ("next ".toList ++ name)
      = some (mktime { tm_now with
          mday := tm_now.mday + (if (W - tmWday tm_now + 7) % 7 = 0 then 7
                                 else (W - tmWday tm_now + 7) % 7)
          hour := 9
          min := 0
          sec := 0 })) :
    ∃ R, parse_natural_date tm_now ("next ".toList ++ name) = some R ∧
      mktime tm_now < R ∧
      civilDay tm_now + 1 ≤ R / 86400 ∧ R / 86400 ≤ civilDay tm_now + 7 ∧
      (R / 86400 + 4) % 7 = W ∧
      R % 86400 = 9 * 3600 := by
  have hm : mktime tm_now
      = civilDay tm_now * 86400 + tm_now.hour * 3600 + tm_now.min * 60 + tm_now.sec := rfl
  refine ⟨_, hpn, ?_, ?_, ?_, ?_, ?_⟩ <;>
    (rw [mktime_update]; simp only [tmWday] at hm ⊢; split_ifs with hE <;> omega)

/-- C5: for every weekday name, `parse_natural_date "next weekday-name"`
succeeds with an instant strictly later than now, between 1 and 7 calendar
days ahead, falling on the requested weekday, at 09:00:00. -/
theorem c5_next_weekday (tm_now : Tm)
    (hv : 0 ≤ tm_now.hour ∧ tm_now.hour ≤ 23 ∧ 0 ≤ tm_now.min ∧ tm_now.min ≤ 59 ∧
          0 ≤ tm_now.sec ∧ tm_now.sec ≤ 59)
    (w : Fin 7) :
    ∃ R, parse_natural_date tm_now ("next ".toList ++ weekdayName w) = some R ∧
      mktime tm_now < R ∧
      civilDay tm_now + 1 ≤ R / 86400 ∧ R / 86400 ≤ civilDay tm_now + 7 ∧
      (R / 86400 + 4) % 7 = (w.val : Int) ∧
      R % 86400 = 9 * 3600 := by
  fin_cases w
  · exact next_weekday_core tm_now hv 0 "sunday".toList (by decide) (by decide) rfl
  · exact next_weekday_core tm_now hv 1 "monday".toList (by decide) (by decide) rfl
  · exact next_weekday_core tm_now hv 2 "tuesday".toList (by decide) (by decide) rfl
  · exact next_weekday_core tm_now hv 3 "wednesday".toList (by decide) (by decide) rfl
  · exact next_weekday_core tm_now hv 4 "thursday".toList (by decide) (by decide) rfl
  · exact next_weekday_core tm_now hv 5 "friday".toList (by decide) (by decide) rfl
  · exact next_weekday_core tm_now hv 6 "saturday".toList (by decide) (by decide) rfl

/-- C5 witness at `nowA` (Monday 2024-05-20 10:30) and weekday 3
(Wednesday). -/
theorem c5_witness :
    ∃ R, parse_natural_date nowA ("next ".toList ++ weekdayName 3) = some R ∧
      mktime nowA < R ∧
      civilDay nowA + 1 ≤ R / 86400 ∧ R / 86400 ≤ civilDay nowA + 7 ∧
      (R / 86400 + 4) % 7 = ((3 : Fin 7).val : Int) ∧
      R % 86400 = 9 * 3600 :=
  c5_next_weekday nowA (by decide) 3

/-! ## Claim C4 -/

/-- C4 counterexample: at `now` = 2024-05-20 10:30:00, the candidate recomputed
with the 09:00 default (2024-05-20 09:00:00 = 1716195600) is strictly before
now, so the claim requires the year to be incremented; but the code compares
the candidate carrying now's own time-of-day (equal to now, not below it) and
returns 2024-05-20 09:00:00 with the year unchanged. -/
theorem c4_counterexample :
    parse_natural_date nowA "may 20".toList = some 1716195600 ∧
    mktime { nowA with mon := 4, mday := 20, hour := 9, min := 0, sec := 0 } = 1716195600 ∧
    1716195600 < mktime nowA ∧
    (localtime 1716195600).year = 2024 ∧
    ¬ ((localtime 1716195600).year = nowA.year + 1) := by
  decide

/-- C4 amended: the month+day branch compares a candidate carrying now's
current time-of-day (the 09:00 default is applied only afterwards), and
increments the year by exactly one exactly when that candidate is strictly
before now, equivalently exactly when now's civil date is strictly after the
named date; in particular "may 20" run with now's date strictly after May 20
resolves to May 20 of the next year at 09:00. -/
theorem c4_amended (tm_now : Tm) :
    parse_natural_date tm_now "may 20".toList
      = some (mktime { tm_now with
          year := (if mktime { tm_now with mon := 4, mday := 20 } < mktime tm_now
                   then tm_now.year + 1 else tm_now.year)
          mon := 4
          mday := 20
          hour := 9
          min := 0
          sec := 0 }) ∧
    (mktime { tm_now with mon := 4, mday := 20 } < mktime tm_now
       ↔ daysFromCivil tm_now.year 5 20 < civilDay tm_now) ∧
    (daysFromCivil tm_now.year 5 20 < civilDay tm_now →
      parse_natural_date tm_now "may 20".toList
        = some (mktime ⟨tm_now.year + 1, 4, 20, 9, 0, 0⟩)) := by
  have habs0 : parse_natural_date tm_now "may 20".toList
      = some (mktime { (if mktime { tm_now with mon := 4, mday := 20 } < mktime tm_now
          then { tm_now with year := tm_now.year + 1, mon := 4, mday := 20 }
          else { tm_now with mon := 4, mday := 20 }) with hour := 9, min := 0, sec := 0 }) := rfl
  have hya : (tm_now.year * 12 + 4) / 12 = tm_now.year := by omega
  have hyb : (tm_now.year * 12 + 4) % 12 = 4 := by omega
  have hcd : civilDay { tm_now with mon := 4, mday := 20 } = daysFromCivil tm_now.year 5 20 := by
    simp only [civilDay]
    rw [hya, hyb]
    norm_num
  have e1 : mktime { tm_now with mon := 4, mday := 20 }
      = daysFromCivil tm_now.year 5 20 * 86400
        + tm_now.hour * 3600 + tm_now.min * 60 + tm_now.sec := by
    simp only [mktime, hcd]
  have e2 : mktime tm_now
      = civilDay tm_now * 86400 + tm_now.hour * 3600 + tm_now.min * 60 + tm_now.sec := rfl
  have hiff : mktime { tm_now with mon := 4, mday := 20 } < mktime tm_now
      ↔ daysFromCivil tm_now.year 5 20 < civilDay tm_now := by
    rw [e1, e2]
    omega
  refine ⟨?_, hiff, ?_⟩
  · by_cases hc : mktime { tm_now with mon := 4, mday := 20 } < mktime tm_now
    · simp only [if_pos hc] at habs0 ⊢
      exact habs0
    · simp only [if_neg hc] at habs0 ⊢
      exact habs0
  · intro hlt
    have hc := hiff.mpr hlt
    rw [habs0, if_pos hc]

/-- C4 amended witness at `now` = 2024-10-15 12:00:00, whose date is strictly
after May 20: the parse resolves to 2025-05-20 09:00. -/
theorem c4_witness :
    parse_natural_date (Tm.mk 2024 9 15 12 0 0) "may 20".toList
      = some (mktime ⟨(Tm.mk 2024 9 15 12 0 0).year + 1, 4, 20, 9, 0, 0⟩) :=
  (c4_amended (Tm.mk 2024 9 15 12 0 0)).2.2 (by decide)

/-! ## Claim C8 -/

/-- C8: the formatter computes `days_diff = (yday(instant) - yday(now) + 365)
tmod 365` and renders "Today at", "Tomorrow at", a weekday name, or a short
month-day date according to `days_diff = 0`, `= 1`, `1 < days_diff < 7`, and
`7 ≤ days_diff`, each with the 12-hour time; and on `now` itself it renders
"Today at" followed by now's own time. -/
theorem c8_format (ts now : Int) :
    ((tmYday (localtime ts) - tmYday (localtime now) + 365).tmod 365 = 0 →
      format_natural_date ts now = "Today at ".toList ++ fmtTime12 (localtime ts)) ∧
    ((tmYday (localtime ts) - tmYday (localtime now) + 365).tmod 365 = 1 →
      format_natural_date ts now = "Tomorrow at ".toList ++ fmtTime12 (localtime ts)) ∧
    (1 < (tmYday (localtime ts) - tmYday (localtime now) + 365).tmod 365 →
     (tmYday (localtime ts) - tmYday (localtime now) + 365).tmod 365 < 7 →
      format_natural_date ts now
        = weekdayFullName (tmWday (localtime ts)) ++ " at ".toList ++ fmtTime12 (localtime ts)) ∧
    (7 ≤ (tmYday (localtime ts) - tmYday (localtime now) + 365).tmod 365 →
      format_natural_date ts now
        = monthAbbrev (localtime ts).mon ++ ' ' :: pad2 (localtime ts).mday
          ++ " at ".toList ++ fmtTime12 (localtime ts)) ∧
    format_natural_date now now = "Today at ".toList ++ fmtTime12 (localtime now) := by
  refine ⟨?_, ?_, ?_, ?_, ?_⟩
  · intro h
    simp only [format_natural_date]
    rw [if_pos h]
  · intro h
    simp only [format_natural_date]
    rw [if_neg (by omega), if_pos h]
  · intro h1 h2
    simp only [format_natural_date]
    rw [if_neg (by omega), if_neg (by omega), if_pos h2]
  · intro h
    simp only [format_natural_date]
    rw [if_neg (by omega), if_neg (by omega), if_neg (by omega)]
  · simp only [format_natural_date]
    rw [show tmYday (localtime now) - tmYday (localtime now) + 365 = (365 : Int) from by ring]
    rw [if_pos (show Int.tmod (365 : Int) 365 = 0 from by decide)]

/-- C8 witness one day ahead of the epoch: `days_diff = 1` renders
"Tomorrow at". -/
theorem c8_witness :
    (tmYday (localtime 86400) - tmYday (localtime 0) + 365).tmod 365 = 1 ∧
    format_natural_date 86400 0 = "Tomorrow at ".toList ++ fmtTime12 (localtime 86400) :=
  ⟨by decide, (c8_format 86400 0).2.1 (by decide)⟩

/-! ## Claim C9 -/

/-- C9: on every failing input, NULL and the empty string included, both
entry points leave the out-parameter `*result` exactly as they found it
(`r0`); the result is written only on success paths. -/
theorem c9_failure_atomic (tm_now : Tm) (inp : Option (List Char)) (r0 : Int) :
    ((parse_natural_date_c tm_now inp r0).1 = false →
      (parse_natural_date_c tm_now inp r0).2 = r0) ∧
    ((parse_time_today_c tm_now inp r0).1 = false →
      (parse_time_today_c tm_now inp r0).2 = r0) ∧
    parse_natural_date_c tm_now none r0 = (false, r0) ∧
    parse_time_today_c tm_now none r0 = (false, r0) ∧
    parse_natural_date_c tm_now (some []) r0 = (false, r0) ∧
    parse_time_today_c tm_now (some []) r0 = (false, r0) := by
  refine ⟨?_, ?_, rfl, rfl, rfl, rfl⟩
  · cases inp with
    | none => intro _; rfl
    | some s =>
      intro h
      rcases hr : parse_relative_date tm_now s with _ | ⟨d, hh, mm⟩ <;>
        rcases ha : parse_absolute_date tm_now s tm_now with _ | tma <;>
        rcases ht : parse_time s tm_now with _ | tmt <;>
        simp_all [parse_natural_date_c, hr, ha, ht]
  · cases inp with
    | none => intro _; rfl
    | some s =>
      intro h
      rcases ht : parse_time s tm_now with _ | tmt <;>
        simp_all [parse_time_today_c, ht]

/-- C9 witness on the failing input "x" with `r0 = 5`. -/
theorem c9_witness :
    (parse_natural_date_c nowA (some ['x']) 5).2 = 5 ∧
    (parse_time_today_c nowA (some ['x']) 5).2 = 5 :=
  ⟨(c9_failure_atomic nowA (some ['x']) 5).1 (by decide),
   (c9_failure_atomic nowA (some ['x']) 5).2.1 (by decide)⟩

/-! ## List and character lemmas for the string recognizers -/

theorem isdigit_facts (c : Char) (h : isdigitC c = true) :
    isspaceC c = false ∧ (c == '-') = false ∧ (c == '+') = false ∧ tolowerC c = c := by
  have hn : 48 ≤ c.toNat ∧ c.toNat ≤ 57 := by
    simpa [isdigitC, Bool.and_eq_true, decide_eq_true_eq] using h
  refine ⟨?_, ?_, ?_, ?_⟩
  · cases hs : isspaceC c
    · rfl
    · exfalso
      simp only [isspaceC, Bool.or_eq_true, beq_iff_eq] at hs
      rcases hs with ((((rfl | rfl) | rfl) | rfl) | rfl) | rfl <;> exact absurd h (by decide)
  · cases hs : c == '-'
    · rfl
    · exact absurd h (by rw [eq_of_beq hs]; decide)
  · cases hs : c == '+'
    · rfl
    · exact absurd h (by rw [eq_of_beq hs]; decide)
  · simp only [tolowerC]
    rw [if_neg (by omega)]

theorem skipWhitespace_cons_of_not (c : Char) (l : List Char) (h : isspaceC c = false) :
    skipWhitespace (c :: l) = c :: l := by
  simp [skipWhitespace, List.dropWhile_cons, h]

theorem takeWhile_digits_append (ds rest : List Char) (c0 : Char)
    (hds : ∀ c ∈ ds, isdigitC c = true) (hc0 : isdigitC c0 = false) :
    (ds ++ c0 :: rest).takeWhile isdigitC = ds ∧
    (ds ++ c0 :: rest).dropWhile isdigitC = c0 :: rest := by
  induction ds with
  | nil => simp [List.takeWhile_cons, List.dropWhile_cons, hc0]
  | cons d ds ih =>
    have hd : isdigitC d = true := hds d (by simp)
    have hih := ih (fun c hc => hds c (by simp [hc]))
    simp [List.takeWhile_cons, List.dropWhile_cons, hd, hih.1, hih.2]

theorem digitsVal_fold_le (ds : List Char) (hds : ∀ c ∈ ds, isdigitC c = true) :
    ∀ acc : Int, 0 ≤ acc →
      0 ≤ ds.foldl (fun a c => a * 10 + ((c.toNat : Int) - 48)) acc ∧
      ds.foldl (fun a c => a * 10 + ((c.toNat : Int) - 48)) acc
        ≤ acc * 10 ^ ds.length + (10 ^ ds.length - 1) := by
  induction ds with
  | nil =>
    intro acc hacc
    simp only [List.foldl_nil, List.length_nil, pow_zero]
    omega
  | cons d ds ih =>
    intro acc hacc
    have hd : 48 ≤ d.toNat ∧ d.toNat ≤ 57 := by
      simpa [isdigitC, Bool.and_eq_true, decide_eq_true_eq] using hds d (by simp)
    have hih := ih (fun c hc => hds c (by simp [hc])) (acc * 10 + ((d.toNat : Int) - 48))
      (by omega)
    simp only [List.foldl_cons, List.length_cons]
    refine ⟨hih.1, ?_⟩
    have hpow : (0 : Int) < 10 ^ ds.length := pow_pos (by norm_num) _
    have hmul : ((d.toNat : Int) - 48 + 1) * 10 ^ ds.length ≤ 10 * 10 ^ ds.length :=
      mul_le_mul_of_nonneg_right (by omega) (le_of_lt hpow)
    calc List.foldl (fun a c => a * 10 + ((c.toNat : Int) - 48))
            (acc * 10 + ((d.toNat : Int) - 48)) ds
        ≤ (acc * 10 + ((d.toNat : Int) - 48)) * 10 ^ ds.length + (10 ^ ds.length - 1) :=
          hih.2
      _ = acc * (10 ^ ds.length * 10)
            + (((d.toNat : Int) - 48 + 1) * 10 ^ ds.length - 1) := by ring
      _ ≤ acc * (10 ^ ds.length * 10) + (10 * 10 ^ ds.length - 1) := by omega
      _ = acc * 10 ^ (ds.length + 1) + (10 ^ (ds.length + 1) - 1) := by
          rw [pow_succ]
          ring

/-- A run of decimal digits denotes a value in `[0, 10^length)`. -/
theorem digitsVal_bounds (ds : List Char) (hds : ∀ c ∈ ds, isdigitC c = true) :
    0 ≤ digitsVal ds ∧ digitsVal ds ≤ 10 ^ ds.length - 1 := by
  have h := digitsVal_fold_le ds hds 0 le_rfl
  simpa [digitsVal] using h

/-- `strtol` on a digit run followed by a non-digit terminator; the bound
keeps the value below the `long` saturation threshold. -/
theorem strtol_digits (ds rest : List Char) (c0 : Char)
    (hne : ds ≠ []) (hds : ∀ c ∈ ds, isdigitC c = true) (hc0 : isdigitC c0 = false)
    (hbound : digitsVal ds ≤ 9223372036854775807) :
    strtol (ds ++ c0 :: rest) = some (digitsVal ds, c0 :: rest) := by
  rcases ds with _ | ⟨d, ds'⟩
  · exact absurd rfl hne
  have hd : isdigitC d = true := hds d (by simp)
  obtain ⟨hsp, hminus, hplus, _⟩ := isdigit_facts d hd
  have htw := takeWhile_digits_append (d :: ds') rest c0 hds hc0
  simp only [List.cons_append] at htw
  have hm2 : ((d :: (ds' ++ c0 :: rest)).head? == some '-') = false := hminus
  have hp2 : ((d :: (ds' ++ c0 :: rest)).head? == some '+') = false := hplus
  simp only [strtol, List.cons_append, List.dropWhile_cons, hsp, Bool.false_eq_true,
    if_false, hm2, hp2, Bool.or_self, htw.1, htw.2, List.isEmpty_cons]
  have hnn := (digitsVal_bounds (d :: ds') hds).1
  have hsat : satLong (digitsVal (d :: ds')) = digitsVal (d :: ds') := by
    simp only [satLong]
    rw [if_neg (by omega), if_neg (by omega)]
  rw [hsat]

/-- `strtol` on a minus sign, digit run, and a non-digit terminator; the
bound keeps the value above the `long` saturation threshold. -/
theorem strtol_neg_digits (ds rest : List Char) (c0 : Char)
    (hne : ds ≠ []) (hds : ∀ c ∈ ds, isdigitC c = true) (hc0 : isdigitC c0 = false)
    (hbound : digitsVal ds ≤ 9223372036854775807) :
    strtol ('-' :: (ds ++ c0 :: rest)) = some (-digitsVal ds, c0 :: rest) := by
  rcases ds with _ | ⟨d, ds'⟩
  · exact absurd rfl hne
  have htw := takeWhile_digits_append (d :: ds') rest c0 hds hc0
  simp only [List.cons_append] at htw
  simp only [strtol, List.cons_append, List.dropWhile_cons,
    show isspaceC '-' = false from rfl, Bool.false_eq_true, if_false,
    show ((('-' : Char) :: (d :: (ds' ++ c0 :: rest))).head? == some '-') = true from rfl,
    Bool.true_or, if_true, List.tail_cons, htw.1, htw.2, List.isEmpty_cons]
  have hnn := (digitsVal_bounds (d :: ds') hds).1
  have hsat : satLong (-digitsVal (d :: ds')) = -digitsVal (d :: ds') := by
    simp only [satLong]
    rw [if_neg (by omega), if_neg (by omega)]
  rw [hsat]

/-! ## Claim C10 -/

/-- C10: after "in N ", any unit word starting with the (lowercase) letter m
is taken as minutes: the day and hour unit tests fail on it, and the minute
branch accepts any token beginning with m, so "in N months" parses as N
minutes, yielding today's date at hour 0, minute N.  `N` is given by an
optional minus sign and its decimal digits; the length bound keeps the value
inside the C `int`/`long` ranges the unbounded model mirrors. -/
theorem c10_m_unit_is_minutes (tm_now : Tm) (sgn : Bool) (ds w : List Char)
    (hne : ds ≠ []) (hlen : ds.length ≤ 9) (hds : ∀ c ∈ ds, isdigitC c = true)
    (hw : w.head? = some 'm') :
    parse_relative_date tm_now ("in ".toList ++ (if sgn then ['-'] else []) ++ ds ++ ' ' :: w)
      = some (0, 0, if sgn then -digitsVal ds else digitsVal ds) ∧
    parse_natural_date tm_now ("in ".toList ++ (if sgn then ['-'] else []) ++ ds ++ ' ' :: w)
      = some (civilDay tm_now * 86400 + (if sgn then -digitsVal ds else digitsVal ds) * 60) := by
  rcases w with _ | ⟨c, w1⟩
  · exact absurd hw (by simp)
  have hc : c = 'm' := by simpa using hw
  subst hc
  have hbound : digitsVal ds ≤ 9223372036854775807 := by
    have hb := (digitsVal_bounds ds hds).2
    have hp : (10 : Int) ^ ds.length ≤ 10 ^ 9 := pow_le_pow_right₀ (by norm_num) hlen
    have h9 : (10 : Int) ^ 9 = 1000000000 := by norm_num
    omega
  have hT : strtol ((if sgn then ['-'] else []) ++ ds ++ ' ' :: 'm' :: w1)
      = some (if sgn then -digitsVal ds else digitsVal ds, ' ' :: 'm' :: w1) := by
    cases sgn
    · simpa using strtol_digits ds ('m' :: w1) ' ' hne hds (by decide) hbound
    · simpa using strtol_neg_digits ds ('m' :: w1) ' ' hne hds (by decide) hbound
  have hskipT : skipWhitespace ((if sgn then ['-'] else []) ++ ds ++ ' ' :: 'm' :: w1)
      = (if sgn then ['-'] else []) ++ ds ++ ' ' :: 'm' :: w1 := by
    cases sgn
    · rcases ds with _ | ⟨d, ds'⟩
      · exact absurd rfl hne
      have hd := (isdigit_facts d (hds d (by simp))).1
      simpa using skipWhitespace_cons_of_not d _ hd
    · simpa using skipWhitespace_cons_of_not '-' _ (by decide)
  have hrel : parse_relative_date tm_now
      ("in ".toList ++ (if sgn then ['-'] else []) ++ ds ++ ' ' :: 'm' :: w1)
      = some (0, 0, if sgn then -digitsVal ds else digitsVal ds) := by
    have hin : "in ".toList ++ (if sgn then ['-'] else []) ++ ds ++ ' ' :: 'm' :: w1
        = 'i' :: 'n' :: ' ' :: ((if sgn then ['-'] else []) ++ ds ++ ' ' :: 'm' :: w1) := rfl
    rw [hin]
    simp only [parse_relative_date,
      skipWhitespace_cons_of_not 'i' _ (by decide),
      show ∀ l : List Char, startsWithCI ('i' :: 'n' :: ' ' :: l) "tomorrow".toList = false
        from fun l => rfl,
      show ∀ l : List Char, startsWithCI ('i' :: 'n' :: ' ' :: l) "in ".toList = true
        from fun l => rfl,
      Bool.false_eq_true, if_false, if_true, List.drop_succ_cons, List.drop_zero,
      hskipT, hT,
      show skipWhitespace (' ' :: 'm' :: w1) = 'm' :: w1 from rfl,
      show startsWithCI ('m' :: w1) "day".toList = false from rfl,
      show (('m' :: w1).head? == some 'd') = false from rfl,
      show startsWithCI ('m' :: w1) "hour".toList = false from rfl,
      show (('m' :: w1).head? == some 'h') = false from rfl,
      show (('m' :: w1).head? == some 'm') = true from rfl,
      Bool.or_true, Bool.or_false, Bool.false_or, Bool.or_self]
  refine ⟨hrel, ?_⟩
  simp only [parse_natural_date, hrel]
  rw [show (mktime { tm_now with
        mday := tm_now.mday + 0
        hour := 0
        min := if sgn then -digitsVal ds else digitsVal ds
        sec := 0 })
      = (civilDay tm_now + 0) * 86400 + 0 * 3600
        + (if sgn then -digitsVal ds else digitsVal ds) * 60 + 0
    from mktime_update tm_now 0 0 (if sgn then -digitsVal ds else digitsVal ds) 0]
  ring_nf

/-- C10 witness: "in 3 months" at `nowA` is 3 minutes after today's
midnight. -/
theorem c10_witness :
    parse_relative_date nowA
        ("in ".toList ++ (if false then ['-'] else []) ++ ['3'] ++ ' ' :: "months".toList)
      = some (0, 0, if false then -digitsVal ['3'] else digitsVal ['3']) ∧
    parse_natural_date nowA
        ("in ".toList ++ (if false then ['-'] else []) ++ ['3'] ++ ' ' :: "months".toList)
      = some (civilDay nowA * 86400 + (if false then -digitsVal ['3'] else digitsVal ['3']) * 60) :=
  c10_m_unit_is_minutes nowA false ['3'] "months".toList (by decide) (by decide)
    (by decide) (by decide)

/-! ## Head-character lemmas for claim C3 -/

theorem startsWithCI_cons_destruct (q : List Char) (p : Char) (ps : List Char)
    (h : startsWithCI q (p :: ps) = true) :
    ∃ c q1, q = c :: q1 ∧ tolowerC c = tolowerC p ∧ startsWithCI q1 ps = true := by
  rcases q with _ | ⟨c, q1⟩
  · simp [startsWithCI, startsWithCIAux] at h
  · refine ⟨c, q1, rfl, ?_, ?_⟩
    · have := (Bool.and_eq_true _ _).mp h
      exact eq_of_beq this.1
    · exact ((Bool.and_eq_true _ _).mp h).2

theorem startsWithCI_head_false (x p : Char) (l ps : List Char)
    (h : ¬ tolowerC x = tolowerC p) :
    startsWithCI (x :: l) (p :: ps) = false := by
  have hb : (tolowerC x == tolowerC p) = false := by
    cases hc : tolowerC x == tolowerC p
    · rfl
    · exact absurd (eq_of_beq hc) h
  simp [startsWithCI, startsWithCIAux, hb]

theorem startsWithCI_head2_false (x y p1 p2 : Char) (l ps : List Char)
    (h : ¬ tolowerC y = tolowerC p2) :
    startsWithCI (x :: y :: l) (p1 :: p2 :: ps) = false := by
  have hb : (tolowerC y == tolowerC p2) = false := by
    cases hc : tolowerC y == tolowerC p2
    · rfl
    · exact absurd (eq_of_beq hc) h
  simp [startsWithCI, startsWithCIAux, hb]

theorem isspace_char_cases (c : Char) (h : isspaceC c = true) :
    c = ' ' ∨ c = '\t' ∨ c = '\n' ∨ c = '\x0b' ∨ c = '\x0c' ∨ c = '\r' := by
  simpa [isspaceC, Bool.or_eq_true, beq_iff_eq, or_assoc] using h

/-- A leading character whose lowercase form is i or n is not whitespace, not
a sign, and not a digit, so `strtol` finds no number at it. -/
theorem nonletter_head_rejects (c0 : Char)
    (hl : tolowerC c0 = 'i' ∨ tolowerC c0 = 'n') :
    isspaceC c0 = false ∧ (c0 == '-') = false ∧ (c0 == '+') = false ∧
    isdigitC c0 = false := by
  refine ⟨?_, ?_, ?_, ?_⟩
  · cases hs : isspaceC c0
    · rfl
    · exfalso
      rcases isspace_char_cases c0 hs with rfl | rfl | rfl | rfl | rfl | rfl <;>
        rcases hl with h | h <;> exact absurd h (by decide)
  · cases hs : c0 == '-'
    · rfl
    · exfalso
      rw [eq_of_beq hs] at hl
      rcases hl with h | h <;> exact absurd h (by decide)
  · cases hs : c0 == '+'
    · rfl
    · exfalso
      rw [eq_of_beq hs] at hl
      rcases hl with h | h <;> exact absurd h (by decide)
  · cases hd : isdigitC c0
    · rfl
    · exfalso
      have h4 := (isdigit_facts c0 hd).2.2.2
      rcases hl with h | h <;> (rw [h4.symm.trans h] at hd; exact absurd hd (by decide))

theorem strtol_none_of_head (c0 : Char) (q1 : List Char)
    (h1 : isspaceC c0 = false) (h2 : (c0 == '-') = false) (h3 : (c0 == '+') = false)
    (h4 : isdigitC c0 = false) :
    strtol (c0 :: q1) = none := by
  have hm : ((c0 :: q1).head? == some '-') = false := h2
  have hp : ((c0 :: q1).head? == some '+') = false := h3
  simp only [strtol, List.dropWhile_cons, h1, Bool.false_eq_true, if_false,
    hm, hp, Bool.or_self, List.takeWhile_cons, h4, List.isEmpty_nil, if_true]

/-- No month-name 3-letter prefix matches a string whose first letter is none
of j f m a s o d and which does not start with nov. -/
theorem parse_month_none_of_head (x : Char) (l : List Char)
    (h1 : ¬ tolowerC x = 'j') (h2 : ¬ tolowerC x = 'f') (h3 : ¬ tolowerC x = 'm')
    (h4 : ¬ tolowerC x = 'a') (h5 : ¬ tolowerC x = 's') (h6 : ¬ tolowerC x = 'o')
    (h7 : ¬ tolowerC x = 'd') (h8 : startsWithCI (x :: l) "nov".toList = false) :
    parse_month (x :: l) = none := by
  have e1 : startsWithCI (x :: l) "jan".toList = false :=
    startsWithCI_head_false x 'j' l ['a', 'n'] h1
  have e2 : startsWithCI (x :: l) "feb".toList = false :=
    startsWithCI_head_false x 'f' l ['e', 'b'] h2
  have e3 : startsWithCI (x :: l) "mar".toList = false :=
    startsWithCI_head_false x 'm' l ['a', 'r'] h3
  have e4 : startsWithCI (x :: l) "apr".toList = false :=
    startsWithCI_head_false x 'a' l ['p', 'r'] h4
  have e5 : startsWithCI (x :: l) "may".toList = false :=
    startsWithCI_head_false x 'm' l ['a', 'y'] h3
  have e6 : startsWithCI (x :: l) "jun".toList = false :=
    startsWithCI_head_false x 'j' l ['u', 'n'] h1
  have e7 : startsWithCI (x :: l) "jul".toList = false :=
    startsWithCI_head_false x 'j' l ['u', 'l'] h1
  have e8 : startsWithCI (x :: l) "aug".toList = false :=
    startsWithCI_head_false x 'a' l ['u', 'g'] h4
  have e9 : startsWithCI (x :: l) "sep".toList = false :=
    startsWithCI_head_false x 's' l ['e', 'p'] h5
  have e10 : startsWithCI (x :: l) "oct".toList = false :=
    startsWithCI_head_false x 'o' l ['c', 't'] h6
  have e12 : startsWithCI (x :: l) "dec".toList = false :=
    startsWithCI_head_false x 'd' l ['e', 'c'] h7
  simp only [parse_month, e1, e2, e3, e4, e5, e6, e7, e8, e9, e10, h8, e12,
    Bool.false_eq_true, if_false]

/-- No weekday-name 3-letter prefix matches a string whose first letter is
none of s m t w f. -/
theorem parse_weekday_none_of_head (x : Char) (l : List Char)
    (h1 : ¬ tolowerC x = 's') (h2 : ¬ tolowerC x = 'm') (h3 : ¬ tolowerC x = 't')
    (h4 : ¬ tolowerC x = 'w') (h5 : ¬ tolowerC x = 'f') :
    parse_weekday (x :: l) = none := by
  have e1 : startsWithCI (x :: l) "sun".toList = false :=
    startsWithCI_head_false x 's' l ['u', 'n'] h1
  have e2 : startsWithCI (x :: l) "mon".toList = false :=
    startsWithCI_head_false x 'm' l ['o', 'n'] h2
  have e3 : startsWithCI (x :: l) "tue".toList = false :=
    startsWithCI_head_false x 't' l ['u', 'e'] h3
  have e4 : startsWithCI (x :: l) "wed".toList = false :=
    startsWithCI_head_false x 'w' l ['e', 'd'] h4
  have e5 : startsWithCI (x :: l) "thu".toList = false :=
    startsWithCI_head_false x 't' l ['h', 'u'] h3
  have e6 : startsWithCI (x :: l) "fri".toList = false :=
    startsWithCI_head_false x 'f' l ['r', 'i'] h5
  have e7 : startsWithCI (x :: l) "sat".toList = false :=
    startsWithCI_head_false x 's' l ['a', 't'] h1
  simp only [parse_weekday, e1, e2, e3, e4, e5, e6, e7, Bool.false_eq_true, if_false]

/-- Shared conclusion of C3: once the month, weekday, and leading-number
probes are all known to fail and the relative recognizer has failed, every
recognizer and the orchestrator itself return failure. -/
theorem recognizers_reject (tm_now : Tm) (s : List Char)
    (hmonth : parse_month s = none) (hweek : parse_weekday s = none)
    (hstr : strtol (skipWhitespace s) = none)
    (hfail : parse_relative_date tm_now s = none) :
    parse_natural_date tm_now s = none ∧
    (∀ tm : Tm, parse_absolute_date tm_now s tm = none) ∧
    (∀ tm : Tm, parse_time s tm = none) := by
  have habs : ∀ tm : Tm, parse_absolute_date tm_now s tm = none := by
    intro tm
    simp [parse_absolute_date, hmonth, hweek]
  have htime : ∀ tm : Tm, parse_time s tm = none := by
    intro tm
    simp [parse_time, hstr]
  refine ⟨?_, habs, htime⟩
  simp [parse_natural_date, hfail, habs tm_now, htime tm_now]

/-! ## Claim C3 -/

/-- C3: on every input whose relative recognizer consumes a leading keyword
("in " or "next ", after whitespace, case-insensitively) but then fails its
internal validation, the whole `parse_natural_date` call fails, and neither
the absolute-date recognizer nor the time-of-day recognizer can succeed on
that input. -/
theorem c3_no_fallback (tm_now : Tm) (s : List Char)
    (hk : startsWithCI (skipWhitespace s) "in ".toList = true
        ∨ startsWithCI (skipWhitespace s) "next ".toList = true)
    (hfail : parse_relative_date tm_now s = none) :
    parse_natural_date tm_now s = none ∧
    (∀ tm : Tm, parse_absolute_date tm_now s tm = none) ∧
    (∀ tm : Tm, parse_time s tm = none) := by
  rcases hk with hk | hk
  · obtain ⟨c0, q1, hq, hc0, -⟩ :=
      startsWithCI_cons_destruct (skipWhitespace s) 'i' ['n', ' '] hk
    have hc0i : tolowerC c0 = 'i' := hc0
    have hrej := nonletter_head_rejects c0 (Or.inl hc0i)
    have hstr : strtol (skipWhitespace s) = none := by
      rw [hq]
      exact strtol_none_of_head c0 q1 hrej.1 hrej.2.1 hrej.2.2.1 hrej.2.2.2
    have hs2 : s = s.takeWhile isspaceC ++ (c0 :: q1) := by
      rw [← hq]
      exact (List.takeWhile_append_dropWhile _ _).symm
    have hmw : parse_month s = none ∧ parse_weekday s = none := by
      rcases hw : s.takeWhile isspaceC with _ | ⟨w0, t1⟩
      · rw [hw] at hs2
        simp only [List.nil_append] at hs2
        rw [hs2]
        exact ⟨parse_month_none_of_head c0 q1 (by rw [hc0i]; decide) (by rw [hc0i]; decide)
            (by rw [hc0i]; decide) (by rw [hc0i]; decide) (by rw [hc0i]; decide)
            (by rw [hc0i]; decide) (by rw [hc0i]; decide)
            (startsWithCI_head_false c0 'n' q1 ['o', 'v'] (by rw [hc0i]; decide)),
          parse_weekday_none_of_head c0 q1 (by rw [hc0i]; decide) (by rw [hc0i]; decide)
            (by rw [hc0i]; decide) (by rw [hc0i]; decide) (by rw [hc0i]; decide)⟩
      · rw [hw] at hs2
        simp only [List.cons_append] at hs2
        have hw0 : isspaceC w0 = true := by
          refine List.mem_takeWhile_imp (p := isspaceC) (l := s) ?_
          rw [hw]
          exact List.mem_cons_self _ _
        rw [hs2]
        rcases isspace_char_cases w0 hw0 with rfl | rfl | rfl | rfl | rfl | rfl <;>
          exact ⟨parse_month_none_of_head _ _ (by decide) (by decide) (by decide) (by decide)
              (by decide) (by decide) (by decide)
              (startsWithCI_head_false _ 'n' _ ['o', 'v'] (by decide)),
            parse_weekday_none_of_head _ _ (by decide) (by decide) (by decide) (by decide)
              (by decide)⟩
    exact recognizers_reject tm_now s hmw.1 hmw.2 hstr hfail
  · obtain ⟨c0, q1, hq, hc0, hrest⟩ :=
      startsWithCI_cons_destruct (skipWhitespace s) 'n' ['e', 'x', 't', ' '] hk
    have hc0n : tolowerC c0 = 'n' := hc0
    obtain ⟨c1, q2, hq1, hc1, -⟩ :=
      startsWithCI_cons_destruct q1 'e' ['x', 't', ' '] hrest
    have hc1e : tolowerC c1 = 'e' := hc1
    subst hq1
    have hrej := nonletter_head_rejects c0 (Or.inr hc0n)
    have hstr : strtol (skipWhitespace s) = none := by
      rw [hq]
      exact strtol_none_of_head c0 (c1 :: q2) hrej.1 hrej.2.1 hrej.2.2.1 hrej.2.2.2
    have hs2 : s = s.takeWhile isspaceC ++ (c0 :: c1 :: q2) := by
      rw [← hq]
      exact (List.takeWhile_append_dropWhile _ _).symm
    have hmw : parse_month s = none ∧ parse_weekday s = none := by
      rcases hw : s.takeWhile isspaceC with _ | ⟨w0, t1⟩
      · rw [hw] at hs2
        simp only [List.nil_append] at hs2
        rw [hs2]
        exact ⟨parse_month_none_of_head c0 (c1 :: q2) (by rw [hc0n]; decide)
            (by rw [hc0n]; decide) (by rw [hc0n]; decide) (by rw [hc0n]; decide)
            (by rw [hc0n]; decide) (by rw [hc0n]; decide) (by rw [hc0n]; decide)
            (startsWithCI_head2_false c0 c1 'n' 'o' q2 ['v'] (by rw [hc1e]; decide)),
          parse_weekday_none_of_head c0 (c1 :: q2) (by rw [hc0n]; decide)
            (by rw [hc0n]; decide) (by rw [hc0n]; decide) (by rw [hc0n]; decide)
            (by rw [hc0n]; decide)⟩
      · rw [hw] at hs2
        simp only [List.cons_append] at hs2
        have hw0 : isspaceC w0 = true := by
          refine List.mem_takeWhile_imp (p := isspaceC) (l := s) ?_
          rw [hw]
          exact List.mem_cons_self _ _
        rw [hs2]
        rcases isspace_char_cases w0 hw0 with rfl | rfl | rfl | rfl | rfl | rfl <;>
          exact ⟨parse_month_none_of_head _ _ (by decide) (by decide) (by decide) (by decide)
              (by decide) (by decide) (by decide)
              (startsWithCI_head_false _ 'n' _ ['o', 'v'] (by decide)),
            parse_weekday_none_of_head _ _ (by decide) (by decide) (by decide) (by decide)
              (by decide)⟩
    exact recognizers_reject tm_now s hmw.1 hmw.2 hstr hfail

/-- C3 witness on "in xyz days" at `nowA`: the "in " keyword is consumed, the
relative recognizer fails, and the whole parse fails. -/
theorem c3_witness :
    parse_natural_date nowA "in xyz days".toList = none ∧
    (∀ tm : Tm, parse_absolute_date nowA "in xyz days".toList tm = none) ∧
    (∀ tm : Tm, parse_time "in xyz days".toList tm = none) :=
  c3_no_fallback nowA "in xyz days".toList (Or.inl (by decide)) (by decide)

end DateParser
